import Mathlib

/-!
# Shared fuel cost tracker — ledger engine verification

Shallow embedding of the ledger engine of the shared-fuel-cost-tracker
website.  The engine operations are translated from the server actions file
(`addMileageEntry`, `undoLastEntry`, `resetAndGetMessage`, `updateSettings`),
the data model from `src/lib/database.ts`, and the initial state from the SQL
schema seed row.  Environment-supplied values of the original JavaScript
(`Date.now()`, the random id generator `nowId()`, `toLocaleString`,
`Intl.NumberFormat` currency rendering, and JS number-to-string coercion) are
passed as explicit parameters.  JavaScript numbers are modelled as exact
rationals, `number | null` as `Option ℚ`, and thrown errors as `Except`.
-/

namespace FuelSplit

/-- The two fixed identities (`type User` in the engine source). -/
inductive User where
  | Amit
  | Ori
deriving DecidableEq, Repr

/-- The map `const OTHER: Record<User, User>` sending each user to the other. -/
def OTHER : User → User
  | User.Amit => User.Ori
  | User.Ori => User.Amit

/-- The `type` discriminator of a history record: `"init" | "entry" | "reset"`. -/
inductive EntryType where
  | init
  | entry
  | reset
deriving DecidableEq, Repr

/-- The per-user accumulated distance map (`Record<User, number>`). -/
structure KmBy where
  Amit : ℚ
  Ori : ℚ
deriving DecidableEq, Repr

/-- Read the map at a user key. -/
def KmBy.get : KmBy → User → ℚ
  | k, User.Amit => k.Amit
  | k, User.Ori => k.Ori

/-- Functional update of the map at a user key
(`{ ...kmBy, [creditedUser]: v }`). -/
def KmBy.update : KmBy → User → ℚ → KmBy
  | k, User.Amit, v => { k with Amit := v }
  | k, User.Ori, v => { k with Ori := v }

/-- The frozen settlement snapshot carried by a `reset` record. -/
structure Snapshot where
  kmBy : KmBy
  pricePerKm : ℚ
  totalKm : ℚ
  totalAmount : ℚ
deriving DecidableEq, Repr

/-- A history record (`type Entry` in `src/lib/database.ts`); optional fields
are `Option` with default `none` (JS `undefined`). -/
structure Entry where
  id : String
  type : EntryType
  timestamp : Int
  reading : Option ℚ := none
  deltaKm : Option ℚ := none
  attributedTo : Option User := none
  enteredBy : Option User := none
  note : Option String := none
  snapshot : Option Snapshot := none
deriving DecidableEq, Repr

/-- The ledger aggregate (`type AppState` in `src/lib/database.ts`). -/
structure AppState where
  version : Int
  pricePerKm : ℚ
  startingOdometer : ℚ
  lastOdometer : Option ℚ
  kmBy : KmBy
  history : List Entry
  lastEnteredBy : Option User
deriving DecidableEq, Repr

/-- The synchronous engine errors (the engine source `throw new Error(...)`
sites, named as in the spec's error taxonomy). -/
inductive EngineError where
  | invalidReading
  | nothingToUndo
  | invalidSettings
deriving DecidableEq, Repr

/-- The action `addMileageEntry(sessionUser, reading, currentState)` from the server
actions file.  `newId` and `ts` stand for the environment-produced `nowId()`
and `Date.now()` values. -/
def addMileageEntry (newId : String) (ts : Int) (sessionUser : User) (reading : ℚ)
    (currentState : AppState) : Except EngineError AppState :=
  match currentState.lastOdometer with
  | none =>
      let newEntry : Entry :=
        { id := newId, type := EntryType.init, timestamp := ts, reading := some reading,
          enteredBy := some sessionUser, note := some "Initial reading set" }
      Except.ok
        { currentState with
            startingOdometer := reading,
            lastOdometer := some reading,
            lastEnteredBy := some sessionUser,
            history := currentState.history ++ [newEntry] }
  | some lastOdo =>
      let delta := reading - lastOdo
      if delta < 0 then
        Except.error EngineError.invalidReading
      else if delta = 0 then
        let newEntry : Entry :=
          { id := newId, type := EntryType.entry, timestamp := ts, reading := some reading,
            deltaKm := some 0, attributedTo := some (OTHER sessionUser),
            enteredBy := some sessionUser, note := some "No change in km" }
        Except.ok
          { currentState with
              lastOdometer := some reading,
              lastEnteredBy := some sessionUser,
              history := currentState.history ++ [newEntry] }
      else
        let creditedUser := OTHER sessionUser
        let newEntry : Entry :=
          { id := newId, type := EntryType.entry, timestamp := ts, reading := some reading,
            deltaKm := some delta, attributedTo := some creditedUser,
            enteredBy := some sessionUser }
        Except.ok
          { currentState with
              kmBy := currentState.kmBy.update creditedUser
                        (currentState.kmBy.get creditedUser + delta),
              lastOdometer := some reading,
              lastEnteredBy := some sessionUser,
              history := currentState.history ++ [newEntry] }

/-- The scan `for (i = history.length - 1; i >= 0; i--) if (history[i].type
=== "entry")` — the most recent `entry`-type record. -/
def lastEntryRecord (h : List Entry) : Option Entry :=
  h.reverse.find? (fun e => decide (e.type = EntryType.entry))

/-- The scan of `undoLastEntry` that restores `lastOdometer`: the `reading`
of the most recent record whose `reading` field is non-null. -/
def lastReading (h : List Entry) : Option ℚ :=
  (h.reverse.find? (fun e => e.reading.isSome)).bind Entry.reading

/-- The action `undoLastEntry(currentState)` from the server actions file. -/
def undoLastEntry (currentState : AppState) : Except EngineError AppState :=
  match lastEntryRecord currentState.history with
  | none => Except.error EngineError.nothingToUndo
  | some lastEntry =>
      let newHistory := currentState.history.filter (fun e => !decide (e.id = lastEntry.id))
      let restoreTo := lastReading newHistory
      let newKmBy :=
        if 0 < lastEntry.deltaKm.getD 0 then
          match lastEntry.attributedTo with
          | some u =>
              currentState.kmBy.update u
                (max 0 (currentState.kmBy.get u - lastEntry.deltaKm.getD 0))
          | none => currentState.kmBy
        else currentState.kmBy
      Except.ok
        { currentState with kmBy := newKmBy, lastOdometer := restoreTo, history := newHistory }

/-- JavaScript `array.filter(Boolean)` over `(string | undefined)[]`: drops
`undefined` and the empty string (both falsy). -/
def jsFilterBoolean (xs : List (Option String)) : List String :=
  xs.filterMap (fun o => match o with
    | none => none
    | some s => if s = "" then none else some s)

/-- The action `resetAndGetMessage(currentState)` from the server actions file.
`newId`, `ts`, `dateStr` stand for the environment-produced id, `Date.now()`
and `new Date(ts).toLocaleString()`; `fmtCurrency` for the `Intl.NumberFormat`
currency renderer and `numStr` for JS number-to-string interpolation. -/
def resetAndGetMessage (newId : String) (ts : Int) (dateStr : String)
    (fmtCurrency : ℚ → String) (numStr : ℚ → String)
    (currentState : AppState) : String × AppState :=
  let totalKm := currentState.kmBy.Amit + currentState.kmBy.Ori
  let totalAmount := totalKm * currentState.pricePerKm
  let amountAmit := currentState.kmBy.Amit * currentState.pricePerKm
  let amountOri := currentState.kmBy.Ori * currentState.pricePerKm
  let message := String.intercalate "\n" (jsFilterBoolean
    [ some ("Fuel split reset (" ++ dateStr ++ ")"),
      some ("Price per km: " ++ fmtCurrency currentState.pricePerKm),
      some "Totals since last reset:",
      some ("- Amit: " ++ numStr currentState.kmBy.Amit ++ " km => " ++ fmtCurrency amountAmit),
      some ("- Ori: " ++ numStr currentState.kmBy.Ori ++ " km => " ++ fmtCurrency amountOri),
      some ("Total: " ++ numStr totalKm ++ " km => " ++ fmtCurrency totalAmount),
      currentState.lastOdometer.map (fun lo => "Odometer: " ++ numStr lo ++ " km"),
      some "Please settle accordingly." ])
  let resetEntry : Entry :=
    { id := newId, type := EntryType.reset, timestamp := ts, note := some "Reset & share",
      snapshot := some
        { kmBy := currentState.kmBy, pricePerKm := currentState.pricePerKm,
          totalKm := totalKm, totalAmount := totalAmount } }
  let newState : AppState :=
    { currentState with
        startingOdometer := currentState.lastOdometer.getD currentState.startingOdometer,
        kmBy := { Amit := 0, Ori := 0 },
        history := currentState.history ++ [resetEntry] }
  (message, newState)

/-- The action `updateSettings(pricePerKm, startingOdometer, currentState)` from the
server actions file. -/
def updateSettings (pricePerKm startingOdometer : ℚ)
    (currentState : AppState) : Except EngineError AppState :=
  if pricePerKm ≤ 0 then
    Except.error EngineError.invalidSettings
  else if startingOdometer < 0 then
    Except.error EngineError.invalidSettings
  else
    Except.ok
      { currentState with
          pricePerKm := pricePerKm,
          startingOdometer :=
            match currentState.lastOdometer with
            | none => startingOdometer
            | some _ => currentState.startingOdometer }

/-- The seed row of `fuel_split_state` from the SQL schema: version 1, price
0.5, starting odometer 0, no reading yet, zero balances, empty history. -/
def initialState : AppState :=
  { version := 1, pricePerKm := 1/2, startingOdometer := 0, lastOdometer := none,
    kmBy := { Amit := 0, Ori := 0 }, history := [], lastEnteredBy := none }

/-- A concrete sample state: the initial reading 1000 has been recorded by
Amit (used to instantiate theorems with hypotheses at a concrete input). -/
def sampleState : AppState :=
  { version := 1, pricePerKm := 1/2, startingOdometer := 1000,
    lastOdometer := some 1000, kmBy := { Amit := 0, Ori := 0 },
    history := [{ id := "id0", type := EntryType.init, timestamp := 0,
                  reading := some 1000, enteredBy := some User.Amit,
                  note := some "Initial reading set" }],
    lastEnteredBy := some User.Amit }

/- ## Store adapter (`src/lib/database.ts`) -/

/-- A row of the `fuel_split_entries` table, as written by `addHistoryEntry`. -/
structure PersistedRow where
  id : String
  type : EntryType
  timestamp : Int
  reading : Option ℚ
  delta_km : Option ℚ
  attributed_to : Option User
  entered_by : Option User
  note : Option String
  snapshot_data : Option Snapshot
deriving DecidableEq, Repr

/-- JavaScript `x || null` on a nullable number: `0` (and `null`/`undefined`)
is falsy, so it becomes `null`. -/
def jsOrNullNum : Option ℚ → Option ℚ
  | none => none
  | some x => if x = 0 then none else some x

/-- JavaScript `s || null` on a nullable string: the empty string is falsy,
so it becomes `null`. -/
def jsOrNullStr : Option String → Option String
  | none => none
  | some s => if s = "" then none else some s

/-- The function `addHistoryEntry(entry)` from `src/lib/database.ts`: the row the INSERT
persists.  The user-valued columns go through `x || null` in the source, but
both user identities are non-empty strings, hence always truthy; the
`snapshot` column is `entry.snapshot ? JSON.stringify(entry.snapshot) : null`,
modelled through the injective stringification as the optional snapshot. -/
def addHistoryEntry (entry : Entry) : PersistedRow :=
  { id := entry.id,
    type := entry.type,
    timestamp := entry.timestamp,
    reading := jsOrNullNum entry.reading,
    delta_km := jsOrNullNum entry.deltaKm,
    attributed_to := entry.attributedTo,
    entered_by := entry.enteredBy,
    note := jsOrNullStr entry.note,
    snapshot_data := entry.snapshot }

/-- The history-row mapping of `getAppState` (`historyResult.map(...)`): each
column is read back verbatim into the `Entry` shape. -/
def readBackEntry (row : PersistedRow) : Entry :=
  { id := row.id,
    type := row.type,
    timestamp := row.timestamp,
    reading := row.reading,
    deltaKm := row.delta_km,
    attributedTo := row.attributed_to,
    enteredBy := row.entered_by,
    note := row.note,
    snapshot := row.snapshot_data }

/-- A concrete probe entry with strictly positive reading and deltaKm but an
empty-string note, exercising the falsy coercions of `addHistoryEntry`. -/
def dbProbeEntry : Entry :=
  { id := "e1", type := EntryType.entry, timestamp := 100, reading := some 5,
    deltaKm := some 3, attributedTo := some User.Ori,
    enteredBy := some User.Amit, note := some "", snapshot := none }

/-- A concrete probe entry with a zero reading (the init-at-odometer-0 case). -/
def dbZeroEntry : Entry :=
  { id := "e0", type := EntryType.init, timestamp := 1, reading := some 0 }

/-- A concrete probe entry with strictly positive reading and deltaKm and no
empty-string note. -/
def dbPosEntry : Entry :=
  { id := "e2", type := EntryType.entry, timestamp := 2, reading := some 1180,
    deltaKm := some 180, attributedTo := some User.Amit,
    enteredBy := some User.Ori }

/- ## Derived history views used by the spec's core invariant -/

/-- The history records since the latest `reset` record, newest first:
scanning from the end of `history` and stopping at the first `reset`. -/
def sinceReversed (h : List Entry) : List Entry :=
  h.reverse.takeWhile (fun e => !decide (e.type = EntryType.reset))

/-- The `entry`-type records in `history` that occur after the latest `reset`
record (all `entry`-type records when no `reset` exists), newest first. -/
def entriesSinceLastReset (h : List Entry) : List Entry :=
  (sinceReversed h).filter (fun e => decide (e.type = EntryType.entry))

/-- Sum of the `deltaKm` fields over a list of records (absent deltas count
as 0, as in the engine's `deltaKm ?? 0`). -/
def deltaSum (l : List Entry) : ℚ :=
  (l.map (fun e => e.deltaKm.getD 0)).sum

/-- Sum of the `deltaKm` fields over the records of a list attributed to a
given user. -/
def deltaSumFor (u : User) (l : List Entry) : ℚ :=
  deltaSum (l.filter (fun e => decide (e.attributedTo = some u)))

/- ## Reachable states

The orchestration layer (the page) threads the single authoritative state
through the engine operations, starting from the seeded row.  Entry ids come
from `nowId()` (timestamp plus random suffix), which the system relies on to
be fresh; freshness of the environment-supplied id is therefore part of the
transition relation. -/

/-- States reachable from the seeded initial state by successful engine
operations, with fresh environment-generated ids. -/
inductive Reachable : AppState → Prop where
  | start : Reachable initialState
  | record (s s' : AppState) (newId : String) (ts : Int) (u : User) (r : ℚ)
      (hs : Reachable s) (hfresh : newId ∉ s.history.map Entry.id)
      (hstep : addMileageEntry newId ts u r s = Except.ok s') : Reachable s'
  | undo (s s' : AppState) (hs : Reachable s)
      (hstep : undoLastEntry s = Except.ok s') : Reachable s'
  | reset (s : AppState) (newId : String) (ts : Int) (dateStr : String)
      (fmtCurrency numStr : ℚ → String)
      (hs : Reachable s) (hfresh : newId ∉ s.history.map Entry.id) :
      Reachable (resetAndGetMessage newId ts dateStr fmtCurrency numStr s).2
  | settings (s s' : AppState) (p so : ℚ) (hs : Reachable s)
      (hstep : updateSettings p so s = Except.ok s') : Reachable s'

/-- The inductive invariant of the ledger: history ids are pairwise distinct,
every `entry`-type record carries a non-negative `deltaKm` and an attributed
user, and each user's balance is exactly the sum of the deltas attributed to
that user since the latest reset. -/
structure Inv (s : AppState) : Prop where
  nodupIds : (s.history.map Entry.id).Nodup
  entryShape : ∀ e ∈ s.history, e.type = EntryType.entry →
    (∃ d, e.deltaKm = some d ∧ 0 ≤ d) ∧ (∃ u, e.attributedTo = some u)
  kmSum : ∀ u, s.kmBy.get u = deltaSumFor u (entriesSinceLastReset s.history)

/- ## Helper lemmas -/

theorem OTHER_ne (u : User) : OTHER u ≠ u := by
  cases u <;> simp [OTHER]

theorem KmBy.get_update_self (k : KmBy) (u : User) (v : ℚ) :
    (k.update u v).get u = v := by
  cases u <;> rfl

theorem KmBy.get_update_other (k : KmBy) (u u' : User) (v : ℚ) (h : u ≠ u') :
    (k.update u v).get u' = k.get u' := by
  cases u <;> cases u' <;> first | rfl | exact absurd rfl h

theorem deltaSum_nil : deltaSum [] = 0 := rfl

theorem deltaSum_cons (e : Entry) (l : List Entry) :
    deltaSum (e :: l) = e.deltaKm.getD 0 + deltaSum l := by
  simp [deltaSum]

theorem deltaSumFor_nil (u : User) : deltaSumFor u [] = 0 := rfl

theorem deltaSumFor_cons (u : User) (e : Entry) (l : List Entry) :
    deltaSumFor u (e :: l) =
      (if e.attributedTo = some u then e.deltaKm.getD 0 else 0) + deltaSumFor u l := by
  by_cases h : e.attributedTo = some u
  · simp [deltaSumFor, List.filter, h, deltaSum_cons]
  · simp [deltaSumFor, List.filter, h]

theorem deltaSumFor_nonneg (u : User) (l : List Entry)
    (h : ∀ e ∈ l, 0 ≤ e.deltaKm.getD 0) : 0 ≤ deltaSumFor u l := by
  induction l with
  | nil => simp [deltaSumFor_nil]
  | cons e l ih =>
      rw [deltaSumFor_cons]
      have h0 : 0 ≤ e.deltaKm.getD 0 := h e (by simp)
      have h1 : 0 ≤ deltaSumFor u l := ih (fun x hx => h x (by simp [hx]))
      have h2 : 0 ≤ (if e.attributedTo = some u then e.deltaKm.getD 0 else 0) := by
        split <;> simp [h0]
      linarith

theorem deltaSumFor_partition (l : List Entry)
    (h : ∀ e ∈ l, ∃ u, e.attributedTo = some u) :
    deltaSumFor User.Amit l + deltaSumFor User.Ori l = deltaSum l := by
  induction l with
  | nil => simp [deltaSumFor_nil, deltaSum_nil]
  | cons e l ih =>
      obtain ⟨u, hu⟩ := h e (by simp)
      have ih' := ih (fun x hx => h x (by simp [hx]))
      cases u <;>
        · rw [deltaSumFor_cons, deltaSumFor_cons, deltaSum_cons, hu]
          simp only [Option.some.injEq, if_true, if_false, reduceCtorEq]
          linarith

theorem sinceReversed_append_not_reset (h : List Entry) (e : Entry)
    (he : e.type ≠ EntryType.reset) :
    sinceReversed (h ++ [e]) = e :: sinceReversed h := by
  simp [sinceReversed, List.takeWhile_cons, he]

theorem sinceReversed_append_reset (h : List Entry) (e : Entry)
    (he : e.type = EntryType.reset) :
    sinceReversed (h ++ [e]) = [] := by
  simp [sinceReversed, List.takeWhile_cons, he]

theorem entriesSince_append_entry (h : List Entry) (e : Entry)
    (he : e.type = EntryType.entry) :
    entriesSinceLastReset (h ++ [e]) = e :: entriesSinceLastReset h := by
  rw [entriesSinceLastReset, sinceReversed_append_not_reset h e (by simp [he])]
  simp [entriesSinceLastReset, List.filter, he]

theorem entriesSince_append_init (h : List Entry) (e : Entry)
    (he : e.type = EntryType.init) :
    entriesSinceLastReset (h ++ [e]) = entriesSinceLastReset h := by
  rw [entriesSinceLastReset, sinceReversed_append_not_reset h e (by simp [he])]
  simp [entriesSinceLastReset, List.filter, he]

theorem entriesSince_append_reset (h : List Entry) (e : Entry)
    (he : e.type = EntryType.reset) :
    entriesSinceLastReset (h ++ [e]) = [] := by
  rw [entriesSinceLastReset, sinceReversed_append_reset h e he]
  rfl

theorem mem_entriesSince (h : List Entry) (e : Entry)
    (he : e ∈ entriesSinceLastReset h) : e ∈ h ∧ e.type = EntryType.entry := by
  rw [entriesSinceLastReset] at he
  rcases List.mem_filter.1 he with ⟨hmem, htype⟩
  refine ⟨?_, by simpa using htype⟩
  have := List.takeWhile_subset (l := h.reverse)
      (fun e => !decide (e.type = EntryType.reset)) hmem
  simpa using this

theorem lastEntryRecord_eq_none (h : List Entry) :
    lastEntryRecord h = none ↔ ∀ e ∈ h, e.type ≠ EntryType.entry := by
  simp [lastEntryRecord]

theorem lastEntryRecord_eq_some (h : List Entry) (e : Entry)
    (hfind : lastEntryRecord h = some e) :
    e.type = EntryType.entry ∧
      ∃ h₁ h₂, h = h₁ ++ e :: h₂ ∧ ∀ x ∈ h₂, x.type ≠ EntryType.entry := by
  rw [lastEntryRecord, List.find?_eq_some] at hfind
  obtain ⟨hp, as, bs, hsplit, has⟩ := hfind
  refine ⟨by simpa using hp, bs.reverse, as.reverse, ?_, ?_⟩
  · have : h.reverse.reverse = (as ++ e :: bs).reverse := by rw [hsplit]
    simpa [List.reverse_append] using this
  · intro x hx
    have := has x (by simpa using hx)
    simpa using this

theorem filter_ne_id_of_nodup (h₁ h₂ : List Entry) (e : Entry)
    (hnodup : ((h₁ ++ e :: h₂).map Entry.id).Nodup) :
    (h₁ ++ e :: h₂).filter (fun x => !decide (x.id = e.id)) = h₁ ++ h₂ := by
  have hid : e.id ∉ h₁.map Entry.id ∧ e.id ∉ h₂.map Entry.id := by
    have h' := hnodup
    simp only [List.map_append, List.map_cons] at h'
    rw [List.nodup_append] at h'
    obtain ⟨n1, n2, disj⟩ := h'
    rw [List.nodup_cons] at n2
    exact ⟨fun hmem => disj hmem (by simp), n2.1⟩
  rw [List.filter_append]
  have e1 : h₁.filter (fun x => !decide (x.id = e.id)) = h₁ := by
    rw [List.filter_eq_self]
    intro a ha
    simp only [Bool.not_eq_eq_eq_not, Bool.not_true, decide_eq_false_iff_not]
    intro hae
    exact hid.1 (by simpa [← hae] using List.mem_map_of_mem Entry.id ha)
  have e2 : (e :: h₂).filter (fun x => !decide (x.id = e.id)) = h₂ := by
    rw [List.filter_cons, if_neg (by simp), List.filter_eq_self]
    intro a ha
    simp only [Bool.not_eq_eq_eq_not, Bool.not_true, decide_eq_false_iff_not]
    intro hae
    exact hid.2 (by simpa [← hae] using List.mem_map_of_mem Entry.id ha)
  rw [e1, e2]

theorem takeWhile_append_of_neg {α : Type} {p : α → Bool} {l₁ l₂ : List α}
    (h : ∃ a ∈ l₁, p a = false) : (l₁ ++ l₂).takeWhile p = l₁.takeWhile p := by
  induction l₁ with
  | nil => obtain ⟨a, ha, _⟩ := h; simp at ha
  | cons x xs ih =>
      by_cases hx : p x = true
      · have h' : ∃ a ∈ xs, p a = false := by
          obtain ⟨a, ha, hpa⟩ := h
          rcases List.mem_cons.1 ha with rfl | ha'
          · rw [hx] at hpa; simp at hpa
          · exact ⟨a, ha', hpa⟩
        simp [List.takeWhile_cons, hx, ih h']
      · simp [List.takeWhile_cons, hx]

theorem sinceReversed_absorb_reset (l h₂ : List Entry)
    (hr : ∃ x ∈ h₂, x.type = EntryType.reset) :
    sinceReversed (l ++ h₂) = sinceReversed h₂ := by
  rw [sinceReversed, sinceReversed, List.reverse_append]
  apply takeWhile_append_of_neg
  obtain ⟨x, hx, hxt⟩ := hr
  exact ⟨x, by simpa using hx, by simp [hxt]⟩

theorem entriesSince_eq_nil_of_no_entry (h : List Entry)
    (hne : ∀ x ∈ h, x.type ≠ EntryType.entry) : entriesSinceLastReset h = [] := by
  rw [entriesSinceLastReset, List.filter_eq_nil_iff]
  intro a ha
  have hmem : a ∈ h := by
    have := List.takeWhile_subset (l := h.reverse)
        (fun e => !decide (e.type = EntryType.reset)) ha
    simpa using this
  simpa using hne a hmem

theorem entriesSince_append_absorb (l h₂ : List Entry)
    (hne : ∀ x ∈ h₂, x.type ≠ EntryType.entry)
    (hnr : ∀ x ∈ h₂, x.type ≠ EntryType.reset) :
    entriesSinceLastReset (l ++ h₂) = entriesSinceLastReset l := by
  rw [entriesSinceLastReset, entriesSinceLastReset, sinceReversed, sinceReversed,
    List.reverse_append]
  rw [List.takeWhile_append_of_pos (by
    intro a ha
    simpa using hnr a (by simpa using ha))]
  rw [List.filter_append]
  have : h₂.reverse.filter (fun e => decide (e.type = EntryType.entry)) = [] := by
    rw [List.filter_eq_nil_iff]
    intro a ha
    simpa using hne a (by simpa using ha)
  rw [this, List.nil_append]

theorem nodup_ids_append (h : List Entry) (e : Entry)
    (hn : (h.map Entry.id).Nodup) (hf : e.id ∉ h.map Entry.id) :
    ((h ++ [e]).map Entry.id).Nodup := by
  rw [List.map_append, List.nodup_append]
  refine ⟨hn, by simp, ?_⟩
  intro a ha hb
  simp only [List.map_cons, List.map_nil, List.mem_singleton] at hb
  subst hb
  exact hf ha

theorem lastReading_append_some (h : List Entry) (e : Entry) (r : ℚ)
    (he : e.reading = some r) : lastReading (h ++ [e]) = some r := by
  simp [lastReading, List.find?_cons, he]

theorem lastReading_append_none (h : List Entry) (e : Entry)
    (he : e.reading = none) : lastReading (h ++ [e]) = lastReading h := by
  simp [lastReading, List.find?_cons, he]

/- ## Characterizations of the engine operations -/

theorem addMileageEntry_first (newId : String) (ts : Int) (u : User) (r : ℚ)
    (s : AppState) (h : s.lastOdometer = none) :
    addMileageEntry newId ts u r s = Except.ok
      { s with
          startingOdometer := r,
          lastOdometer := some r,
          lastEnteredBy := some u,
          history := s.history ++
            [{ id := newId, type := EntryType.init, timestamp := ts,
               reading := some r, enteredBy := some u,
               note := some "Initial reading set" }] } := by
  simp [addMileageEntry, h]

theorem addMileageEntry_decrease (newId : String) (ts : Int) (u : User) (r L : ℚ)
    (s : AppState) (h : s.lastOdometer = some L) (hr : r - L < 0) :
    addMileageEntry newId ts u r s = Except.error EngineError.invalidReading := by
  simp [addMileageEntry, h, hr]

theorem addMileageEntry_zero (newId : String) (ts : Int) (u : User) (r L : ℚ)
    (s : AppState) (h : s.lastOdometer = some L) (hr : r - L = 0) :
    addMileageEntry newId ts u r s = Except.ok
      { s with
          lastOdometer := some r,
          lastEnteredBy := some u,
          history := s.history ++
            [{ id := newId, type := EntryType.entry, timestamp := ts,
               reading := some r, deltaKm := some 0,
               attributedTo := some (OTHER u), enteredBy := some u,
               note := some "No change in km" }] } := by
  have hnotlt : ¬ r - L < 0 := by rw [hr]; simp
  simp [addMileageEntry, h, hnotlt, hr]

theorem addMileageEntry_pos (newId : String) (ts : Int) (u : User) (r L : ℚ)
    (s : AppState) (h : s.lastOdometer = some L) (hr : 0 < r - L) :
    addMileageEntry newId ts u r s = Except.ok
      { s with
          kmBy := s.kmBy.update (OTHER u) (s.kmBy.get (OTHER u) + (r - L)),
          lastOdometer := some r,
          lastEnteredBy := some u,
          history := s.history ++
            [{ id := newId, type := EntryType.entry, timestamp := ts,
               reading := some r, deltaKm := some (r - L),
               attributedTo := some (OTHER u), enteredBy := some u }] } := by
  have hnotlt : ¬ r - L < 0 := by linarith
  have hne : ¬ r - L = 0 := by linarith
  simp [addMileageEntry, h, hnotlt, hne]

theorem updateSettings_spec (p so : ℚ) (s : AppState) :
    updateSettings p so s =
      if p ≤ 0 ∨ so < 0 then Except.error EngineError.invalidSettings
      else Except.ok
        { s with
            pricePerKm := p,
            startingOdometer :=
              match s.lastOdometer with
              | none => so
              | some _ => s.startingOdometer } := by
  rw [updateSettings]
  by_cases h1 : p ≤ 0
  · simp [h1]
  · by_cases h2 : so < 0
    · simp [h1, h2]
    · simp [h1, h2]

theorem resetAndGetMessage_state (newId : String) (ts : Int) (dateStr : String)
    (fmtCurrency numStr : ℚ → String) (s : AppState) :
    (resetAndGetMessage newId ts dateStr fmtCurrency numStr s).2 =
      { s with
          startingOdometer := s.lastOdometer.getD s.startingOdometer,
          kmBy := { Amit := 0, Ori := 0 },
          history := s.history ++
            [{ id := newId, type := EntryType.reset, timestamp := ts,
               note := some "Reset & share",
               snapshot := some
                 { kmBy := s.kmBy, pricePerKm := s.pricePerKm,
                   totalKm := s.kmBy.Amit + s.kmBy.Ori,
                   totalAmount := (s.kmBy.Amit + s.kmBy.Ori) * s.pricePerKm } }] } := by
  rfl

/- ## Preservation of the inductive invariant -/

theorem entriesSince_absorb_reset (l h₂ : List Entry)
    (hr : ∃ x ∈ h₂, x.type = EntryType.reset) :
    entriesSinceLastReset (l ++ h₂) = entriesSinceLastReset h₂ := by
  rw [entriesSinceLastReset, sinceReversed_absorb_reset l h₂ hr]
  rfl

theorem inv_start : Inv initialState := by
  refine ⟨by simp [initialState], ?_, ?_⟩
  · intro e he
    simp [initialState] at he
  · intro u
    cases u <;> rfl

theorem inv_of_append_entry (s : AppState) (hinv : Inv s) (e : Entry)
    (hid : e.id ∉ s.history.map Entry.id) (het : e.type = EntryType.entry)
    (d : ℚ) (hd : e.deltaKm = some d) (hd0 : 0 ≤ d)
    (u₀ : User) (hu : e.attributedTo = some u₀)
    (s' : AppState) (hh : s'.history = s.history ++ [e])
    (hk : ∀ v, s'.kmBy.get v = s.kmBy.get v + (if u₀ = v then d else 0)) :
    Inv s' := by
  refine ⟨?_, ?_, ?_⟩
  · rw [hh]
    exact nodup_ids_append _ _ hinv.nodupIds hid
  · intro x hx htype
    rw [hh] at hx
    rcases List.mem_append.1 hx with hold | hnew
    · exact hinv.entryShape x hold htype
    · rw [List.mem_singleton] at hnew
      subst hnew
      exact ⟨⟨d, hd, hd0⟩, ⟨u₀, hu⟩⟩
  · intro v
    rw [hh, entriesSince_append_entry s.history e het, deltaSumFor_cons, hk v,
      ← hinv.kmSum v, hu, hd]
    by_cases hv : u₀ = v
    · subst hv
      simp [add_comm]
    · have h2 : ¬ ((some u₀ : Option User) = some v) := by simpa using hv
      simp [hv, h2]

theorem inv_of_append_init (s : AppState) (hinv : Inv s) (e : Entry)
    (hid : e.id ∉ s.history.map Entry.id) (het : e.type = EntryType.init)
    (s' : AppState) (hh : s'.history = s.history ++ [e])
    (hk : s'.kmBy = s.kmBy) : Inv s' := by
  refine ⟨?_, ?_, ?_⟩
  · rw [hh]
    exact nodup_ids_append _ _ hinv.nodupIds hid
  · intro x hx htype
    rw [hh] at hx
    rcases List.mem_append.1 hx with hold | hnew
    · exact hinv.entryShape x hold htype
    · rw [List.mem_singleton] at hnew
      subst hnew
      rw [het] at htype
      exact absurd htype (by decide)
  · intro v
    rw [hh, entriesSince_append_init s.history e het, hk]
    exact hinv.kmSum v

theorem inv_record (s s' : AppState) (newId : String) (ts : Int) (u : User) (r : ℚ)
    (hinv : Inv s) (hfresh : newId ∉ s.history.map Entry.id)
    (hstep : addMileageEntry newId ts u r s = Except.ok s') : Inv s' := by
  cases hlo : s.lastOdometer with
  | none =>
      rw [addMileageEntry_first newId ts u r s hlo] at hstep
      injection hstep with h
      exact inv_of_append_init s hinv _ hfresh rfl s' (by rw [← h]) (by rw [← h])
  | some L =>
      rcases lt_trichotomy (r - L) 0 with hneg | hzero | hpos
      · rw [addMileageEntry_decrease newId ts u r L s hlo hneg] at hstep
        exact absurd hstep (by simp)
      · rw [addMileageEntry_zero newId ts u r L s hlo hzero] at hstep
        injection hstep with h
        refine inv_of_append_entry s hinv _ hfresh rfl 0 rfl le_rfl (OTHER u) rfl
          s' (by rw [← h]) ?_
        intro v
        rw [← h]
        simp
      · rw [addMileageEntry_pos newId ts u r L s hlo hpos] at hstep
        injection hstep with h
        refine inv_of_append_entry s hinv _ hfresh rfl (r - L) rfl (le_of_lt hpos)
          (OTHER u) rfl s' (by rw [← h]) ?_
        intro v
        rw [← h]
        by_cases hv : OTHER u = v
        · subst hv
          show (s.kmBy.update (OTHER u) (s.kmBy.get (OTHER u) + (r - L))).get (OTHER u) = _
          rw [KmBy.get_update_self, if_pos rfl]
        · show (s.kmBy.update (OTHER u) (s.kmBy.get (OTHER u) + (r - L))).get v = _
          rw [KmBy.get_update_other _ _ _ _ hv, if_neg hv, add_zero]

theorem inv_reset (s : AppState) (newId : String) (ts : Int) (dateStr : String)
    (fmtCurrency numStr : ℚ → String) (hinv : Inv s)
    (hfresh : newId ∉ s.history.map Entry.id) :
    Inv (resetAndGetMessage newId ts dateStr fmtCurrency numStr s).2 := by
  rw [resetAndGetMessage_state]
  refine ⟨?_, ?_, ?_⟩
  · exact nodup_ids_append _ _ hinv.nodupIds hfresh
  · intro x hx htype
    rcases List.mem_append.1 hx with hold | hnew
    · exact hinv.entryShape x hold htype
    · rw [List.mem_singleton] at hnew
      subst hnew
      simp at htype
  · intro v
    rw [show ({ s with
          startingOdometer := s.lastOdometer.getD s.startingOdometer,
          kmBy := { Amit := 0, Ori := 0 },
          history := s.history ++
            [{ id := newId, type := EntryType.reset, timestamp := ts,
               note := some "Reset & share",
               snapshot := some
                 { kmBy := s.kmBy, pricePerKm := s.pricePerKm,
                   totalKm := s.kmBy.Amit + s.kmBy.Ori,
                   totalAmount := (s.kmBy.Amit + s.kmBy.Ori) * s.pricePerKm } }] } :
        AppState).history = s.history ++ [_] from rfl]
    rw [entriesSince_append_reset s.history _ rfl]
    cases v <;> rfl

theorem undoLastEntry_some (s : AppState) (eL : Entry)
    (hfind : lastEntryRecord s.history = some eL) :
    undoLastEntry s = Except.ok
      { s with
          kmBy :=
            if 0 < eL.deltaKm.getD 0 then
              match eL.attributedTo with
              | some u =>
                  s.kmBy.update u (max 0 (s.kmBy.get u - eL.deltaKm.getD 0))
              | none => s.kmBy
            else s.kmBy,
          lastOdometer :=
            lastReading (s.history.filter (fun e => !decide (e.id = eL.id))),
          history := s.history.filter (fun e => !decide (e.id = eL.id)) } := by
  rw [undoLastEntry, hfind]

theorem inv_undo (s s' : AppState) (hinv : Inv s)
    (hstep : undoLastEntry s = Except.ok s') : Inv s' := by
  cases hfind : lastEntryRecord s.history with
  | none =>
      rw [undoLastEntry, hfind] at hstep
      exact absurd hstep (by simp)
  | some eL =>
      obtain ⟨htype, h₁, h₂, hsplit, hnoentry⟩ := lastEntryRecord_eq_some _ _ hfind
      have heLmem : eL ∈ s.history := by
        rw [hsplit]
        exact List.mem_append.2 (Or.inr (by simp))
      obtain ⟨⟨d, hd, hd0⟩, u₀, hu₀⟩ := hinv.entryShape eL heLmem htype
      have hfilter : s.history.filter (fun e => !decide (e.id = eL.id)) = h₁ ++ h₂ := by
        rw [hsplit]
        exact filter_ne_id_of_nodup h₁ h₂ eL (by rw [← hsplit]; exact hinv.nodupIds)
      rw [undoLastEntry_some s eL hfind] at hstep
      injection hstep with hs'
      have hh : s'.history = h₁ ++ h₂ := by rw [← hs', hfilter]
      have hkm : s'.kmBy =
          if 0 < d then s.kmBy.update u₀ (max 0 (s.kmBy.get u₀ - d)) else s.kmBy := by
        rw [← hs', hd, hu₀]
        rfl
      have hnodup' : ((h₁ ++ h₂).map Entry.id).Nodup := by
        have hsub : List.Sublist (h₁ ++ h₂) (h₁ ++ eL :: h₂) :=
          (List.sublist_cons_self eL h₂).append_left h₁
        exact List.Nodup.sublist (hsub.map Entry.id)
          (by rw [← hsplit]; exact hinv.nodupIds)
      have hshape' : ∀ x ∈ h₁ ++ h₂, x.type = EntryType.entry →
          (∃ dd, x.deltaKm = some dd ∧ 0 ≤ dd) ∧ (∃ uu, x.attributedTo = some uu) := by
        intro x hx htx
        have hxmem : x ∈ s.history := by
          rw [hsplit]
          rcases List.mem_append.1 hx with hl | hr
          · exact List.mem_append.2 (Or.inl hl)
          · exact List.mem_append.2 (Or.inr (by simp [hr]))
        exact hinv.entryShape x hxmem htx
      by_cases hreset : ∃ x ∈ h₂, x.type = EntryType.reset
      · -- the removed record lies before the latest reset: all balances are 0
        have hnil₂ : entriesSinceLastReset h₂ = [] :=
          entriesSince_eq_nil_of_no_entry h₂ hnoentry
        have hold0 : ∀ v, s.kmBy.get v = 0 := by
          intro v
          rw [hinv.kmSum v, hsplit,
            show h₁ ++ eL :: h₂ = (h₁ ++ [eL]) ++ h₂ by simp,
            entriesSince_absorb_reset _ h₂ hreset, hnil₂]
          rfl
        have hnew0 : ∀ v, s'.kmBy.get v = 0 := by
          intro v
          rw [hkm]
          by_cases hdpos : 0 < d
          · rw [if_pos hdpos]
            by_cases hv : u₀ = v
            · subst hv
              rw [KmBy.get_update_self, hold0 u₀]
              simp
              linarith
            · rw [KmBy.get_update_other _ _ _ _ hv, hold0 v]
          · rw [if_neg hdpos]
            exact hold0 v
        refine ⟨by rw [hh]; exact hnodup', by rw [hh]; exact hshape', ?_⟩
        intro v
        rw [hh, entriesSince_absorb_reset h₁ h₂ hreset, hnil₂, hnew0 v]
        rfl
      · -- no reset after the removed record: balances drop by exactly its delta
        push_neg at hreset
        have habs : ∀ l, entriesSinceLastReset (l ++ h₂) = entriesSinceLastReset l :=
          fun l => entriesSince_append_absorb l h₂ hnoentry hreset
        have hold_decomp :
            entriesSinceLastReset s.history = eL :: entriesSinceLastReset h₁ := by
          rw [hsplit, show h₁ ++ eL :: h₂ = (h₁ ++ [eL]) ++ h₂ by simp, habs,
            entriesSince_append_entry h₁ eL htype]
        have holdkm : ∀ v, s.kmBy.get v =
            (if u₀ = v then d else 0) + deltaSumFor v (entriesSinceLastReset h₁) := by
          intro v
          rw [hinv.kmSum v, hold_decomp, deltaSumFor_cons, hu₀, hd]
          by_cases hv : u₀ = v
          · subst hv
            simp
          · have h2 : ¬ ((some u₀ : Option User) = some v) := by simpa using hv
            simp [hv, h2]
        have hS1 : ∀ v, 0 ≤ deltaSumFor v (entriesSinceLastReset h₁) := by
          intro v
          apply deltaSumFor_nonneg
          intro x hx
          obtain ⟨hxmem, hxtype⟩ := mem_entriesSince h₁ x hx
          obtain ⟨⟨d', hd', hd0'⟩, _⟩ := hinv.entryShape x
            (by rw [hsplit]; exact List.mem_append.2 (Or.inl hxmem)) hxtype
          rw [hd']
          simpa using hd0'
        refine ⟨by rw [hh]; exact hnodup', by rw [hh]; exact hshape', ?_⟩
        intro v
        rw [hh, habs, hkm]
        by_cases hdpos : 0 < d
        · rw [if_pos hdpos]
          by_cases hv : u₀ = v
          · subst hv
            rw [KmBy.get_update_self, holdkm u₀, if_pos rfl]
            have := hS1 u₀
            rw [max_eq_right (by linarith)]
            ring
          · rw [KmBy.get_update_other _ _ _ _ hv, holdkm v, if_neg hv, zero_add]
        · rw [if_neg hdpos]
          have hdz : d = 0 := le_antisymm (not_lt.1 hdpos) hd0
          rw [holdkm v, hdz]
          simp

theorem inv_settings (s s' : AppState) (p so : ℚ) (hinv : Inv s)
    (hstep : updateSettings p so s = Except.ok s') : Inv s' := by
  rw [updateSettings_spec] at hstep
  by_cases hc : p ≤ 0 ∨ so < 0
  · rw [if_pos hc] at hstep
    exact absurd hstep (by simp)
  · rw [if_neg hc] at hstep
    injection hstep with h
    exact ⟨by rw [← h]; exact hinv.nodupIds,
      by rw [← h]; exact hinv.entryShape,
      by rw [← h]; exact hinv.kmSum⟩

theorem reachable_inv (s : AppState) (h : Reachable s) : Inv s := by
  induction h with
  | start => exact inv_start
  | record s s' newId ts u r hs hfresh hstep ih =>
      exact inv_record s s' newId ts u r ih hfresh hstep
  | undo s s' hs hstep ih =>
      exact inv_undo s s' ih hstep
  | reset s newId ts dateStr fmtCurrency numStr hs hfresh ih =>
      exact inv_reset s newId ts dateStr fmtCurrency numStr ih hfresh
  | settings s s' p so hs hstep ih =>
      exact inv_settings s s' p so ih hstep

theorem lastEntryRecord_append_entry (h : List Entry) (e : Entry)
    (he : e.type = EntryType.entry) : lastEntryRecord (h ++ [e]) = some e := by
  simp [lastEntryRecord, List.find?_cons, he]

theorem filter_ne_id_append_fresh (h : List Entry) (e : Entry) (i : String)
    (hi : e.id = i) (hf : i ∉ h.map Entry.id) :
    (h ++ [e]).filter (fun x => !decide (x.id = i)) = h := by
  subst hi
  rw [List.filter_append]
  have e2 : [e].filter (fun x => !decide (x.id = e.id)) = [] := by
    rw [List.filter_cons, if_neg (by simp)]
    rfl
  have e1 : h.filter (fun x => !decide (x.id = e.id)) = h := by
    rw [List.filter_eq_self]
    intro a ha
    simp only [Bool.not_eq_eq_eq_not, Bool.not_true, decide_eq_false_iff_not]
    intro hae
    exact hf (by simpa [← hae] using List.mem_map_of_mem Entry.id ha)
  rw [e1, e2, List.append_nil]

theorem KmBy.update_update (k : KmBy) (u : User) (a b : ℚ) :
    (k.update u a).update u b = k.update u b := by
  cases u <;> rfl

theorem KmBy.update_get_self (k : KmBy) (u : User) :
    k.update u (k.get u) = k := by
  cases u <;> rfl

/-- On every reachable state the most recent reading-bearing history record
carries the current lastOdometer (justifying that hypothesis where used). -/
theorem reachable_lastReading (s : AppState) (h : Reachable s) :
    lastReading s.history = s.lastOdometer := by
  induction h with
  | start => rfl
  | record s s' newId ts u r hs hfresh hstep ih =>
      cases hlo : s.lastOdometer with
      | none =>
          rw [addMileageEntry_first newId ts u r s hlo] at hstep
          injection hstep with hh
          subst hh
          exact lastReading_append_some s.history _ r rfl
      | some L =>
          rcases lt_trichotomy (r - L) 0 with hneg | hzero | hpos
          · rw [addMileageEntry_decrease newId ts u r L s hlo hneg] at hstep
            exact absurd hstep (by simp)
          · rw [addMileageEntry_zero newId ts u r L s hlo hzero] at hstep
            injection hstep with hh
            subst hh
            exact lastReading_append_some s.history _ r rfl
          · rw [addMileageEntry_pos newId ts u r L s hlo hpos] at hstep
            injection hstep with hh
            subst hh
            exact lastReading_append_some s.history _ r rfl
  | undo s s' hs hstep ih =>
      cases hfind : lastEntryRecord s.history with
      | none =>
          rw [undoLastEntry, hfind] at hstep
          exact absurd hstep (by simp)
      | some eL =>
          rw [undoLastEntry_some s eL hfind] at hstep
          injection hstep with hh
          subst hh
          rfl
  | reset s newId ts dateStr fmtCurrency numStr hs hfresh ih =>
      rw [resetAndGetMessage_state]
      show lastReading (s.history ++ [_]) = s.lastOdometer
      rw [lastReading_append_none s.history _ rfl]
      exact ih
  | settings s s' p so hs hstep ih =>
      rw [updateSettings_spec] at hstep
      by_cases hc : p ≤ 0 ∨ so < 0
      · rw [if_pos hc] at hstep
        exact absurd hstep (by simp)
      · rw [if_neg hc] at hstep
        injection hstep with hh
        subst hh
        exact ih

/-- On every reachable state both balances are non-negative (justifying that
hypothesis where used). -/
theorem reachable_kmBy_nonneg (s : AppState) (h : Reachable s) :
    ∀ v, 0 ≤ s.kmBy.get v := by
  intro v
  have hinv := reachable_inv s h
  rw [hinv.kmSum v]
  apply deltaSumFor_nonneg
  intro x hx
  obtain ⟨hxmem, hxtype⟩ := mem_entriesSince s.history x hx
  obtain ⟨⟨d, hd, hd0⟩, _⟩ := hinv.entryShape x hxmem hxtype
  rw [hd]
  simpa using hd0

/- ## Claim theorems -/

/-- C1: for every state reachable from the initial state by any sequence of
engine operations (recordReading / addMileageEntry, undoLast / undoLastEntry,
reset / resetAndGetMessage, updateSettings), the sum of the two users' kmBy
values equals the sum of the deltaKm fields of all entry-type records in
history that occur after the latest reset record (or of all entry-type records
if no reset record exists). -/
theorem C1_kmBy_sum_invariant (s : AppState) (h : Reachable s) :
    s.kmBy.Amit + s.kmBy.Ori = deltaSum (entriesSinceLastReset s.history) := by
  have hinv := reachable_inv s h
  have hattr : ∀ e ∈ entriesSinceLastReset s.history, ∃ u, e.attributedTo = some u := by
    intro e he
    obtain ⟨hmem, htype⟩ := mem_entriesSince s.history e he
    exact (hinv.entryShape e hmem htype).2
  rw [← deltaSumFor_partition _ hattr, ← hinv.kmSum User.Amit, ← hinv.kmSum User.Ori]
  rfl

/-- Witness for C1: the invariant instantiated at the initial state. -/
theorem C1_kmBy_sum_invariant_witness :
    Reachable initialState ∧
      initialState.kmBy.Amit + initialState.kmBy.Ori =
        deltaSum (entriesSinceLastReset initialState.history) :=
  ⟨Reachable.start, C1_kmBy_sum_invariant initialState Reachable.start⟩

/-- C2: for every state whose lastOdometer is set, every submitting user
among the two fixed identities, and every reading with
reading - lastOdometer > 0, a successful recordReading (addMileageEntry)
creates an entry whose attributedTo is other(submittingUser) — never the
submitter — and adds the delta to kmBy of that other user only. -/
theorem C2_attribution_inversion (s : AppState) (newId : String) (ts : Int)
    (u : User) (r L : ℚ) (s' : AppState)
    (hlo : s.lastOdometer = some L) (hpos : 0 < r - L)
    (hstep : addMileageEntry newId ts u r s = Except.ok s') :
    ∃ e, s'.history = s.history ++ [e] ∧
      e.type = EntryType.entry ∧
      e.attributedTo = some (OTHER u) ∧
      e.attributedTo ≠ some u ∧
      e.enteredBy = some u ∧
      s'.kmBy.get (OTHER u) = s.kmBy.get (OTHER u) + (r - L) ∧
      s'.kmBy.get u = s.kmBy.get u := by
  rw [addMileageEntry_pos newId ts u r L s hlo hpos] at hstep
  injection hstep with h
  subst h
  refine ⟨_, rfl, rfl, rfl, ?_, rfl, ?_, ?_⟩
  · simp [OTHER_ne u]
  · exact KmBy.get_update_self _ _ _
  · exact KmBy.get_update_other _ _ _ _ (OTHER_ne u)

/-- Witness for C2: Ori submits 1180 after a last odometer of 1000; the 180 km
are credited to Amit, who did not submit. -/
theorem C2_attribution_inversion_witness :
    ({ version := 1, pricePerKm := 1/2, startingOdometer := 1000,
       lastOdometer := some 1000, kmBy := { Amit := 0, Ori := 0 },
       history := [], lastEnteredBy := none } : AppState).lastOdometer = some 1000 ∧
    (0 : ℚ) < 1180 - 1000 ∧
    ∃ s', addMileageEntry "id1" 7 User.Ori 1180
        { version := 1, pricePerKm := 1/2, startingOdometer := 1000,
          lastOdometer := some 1000, kmBy := { Amit := 0, Ori := 0 },
          history := [], lastEnteredBy := none } = Except.ok s' ∧
      ∃ e, s'.history =
          ({ version := 1, pricePerKm := 1/2, startingOdometer := 1000,
             lastOdometer := some 1000, kmBy := { Amit := 0, Ori := 0 },
             history := [], lastEnteredBy := none } : AppState).history ++ [e] ∧
        e.type = EntryType.entry ∧
        e.attributedTo = some (OTHER User.Ori) ∧
        e.attributedTo ≠ some User.Ori ∧
        e.enteredBy = some User.Ori ∧
        s'.kmBy.get (OTHER User.Ori) =
          ({ version := 1, pricePerKm := 1/2, startingOdometer := 1000,
             lastOdometer := some 1000, kmBy := { Amit := 0, Ori := 0 },
             history := [], lastEnteredBy := none } : AppState).kmBy.get (OTHER User.Ori)
            + (1180 - 1000) ∧
        s'.kmBy.get User.Ori =
          ({ version := 1, pricePerKm := 1/2, startingOdometer := 1000,
             lastOdometer := some 1000, kmBy := { Amit := 0, Ori := 0 },
             history := [], lastEnteredBy := none } : AppState).kmBy.get User.Ori := by
  have hstep := addMileageEntry_pos "id1" 7 User.Ori 1180 1000
    { version := 1, pricePerKm := 1/2, startingOdometer := 1000,
      lastOdometer := some 1000, kmBy := { Amit := 0, Ori := 0 },
      history := [], lastEnteredBy := none } rfl (by norm_num)
  exact ⟨rfl, by norm_num,
    ⟨_, hstep, C2_attribution_inversion _ "id1" 7 User.Ori 1180 1000 _ rfl (by norm_num) hstep⟩⟩

/-- C3: for every state whose lastOdometer is set and every reading strictly
below lastOdometer, recordReading (addMileageEntry) fails with InvalidReading
— in this pure embedding a failing operation returns only the error, so the
caller's state is left exactly as it was and no entry is created — and on any
successful call the new lastOdometer is the submitted reading, which is at
least the old one, so recordReading never decreases lastOdometer. -/
theorem C3_monotone_reading (s : AppState) (L : ℚ) (hlo : s.lastOdometer = some L) :
    (∀ newId ts u r, r < L →
      addMileageEntry newId ts u r s = Except.error EngineError.invalidReading) ∧
    (∀ newId ts u r s', addMileageEntry newId ts u r s = Except.ok s' →
      s'.lastOdometer = some r ∧ L ≤ r) := by
  constructor
  · intro newId ts u r hr
    exact addMileageEntry_decrease newId ts u r L s hlo (by linarith)
  · intro newId ts u r s' hstep
    rcases lt_trichotomy (r - L) 0 with hneg | hzero | hpos
    · rw [addMileageEntry_decrease newId ts u r L s hlo hneg] at hstep
      exact absurd hstep (by simp)
    · rw [addMileageEntry_zero newId ts u r L s hlo hzero] at hstep
      injection hstep with h
      subst h
      exact ⟨rfl, by linarith⟩
    · rw [addMileageEntry_pos newId ts u r L s hlo hpos] at hstep
      injection hstep with h
      subst h
      exact ⟨rfl, by linarith⟩

/-- Witness for C3: with last odometer 1000, submitting 900 fails with
InvalidReading. -/
theorem C3_monotone_reading_witness :
    ({ version := 1, pricePerKm := 1/2, startingOdometer := 1000,
       lastOdometer := some 1000, kmBy := { Amit := 0, Ori := 0 },
       history := [], lastEnteredBy := none } : AppState).lastOdometer = some 1000 ∧
    (900 : ℚ) < 1000 ∧
    addMileageEntry "id1" 7 User.Amit 900
      { version := 1, pricePerKm := 1/2, startingOdometer := 1000,
        lastOdometer := some 1000, kmBy := { Amit := 0, Ori := 0 },
        history := [], lastEnteredBy := none } =
      Except.error EngineError.invalidReading :=
  ⟨rfl, by norm_num,
    (C3_monotone_reading _ 1000 rfl).1 "id1" 7 User.Amit 900 (by norm_num)⟩

/-- C4: for every state s (satisfying the reachable-state facts that the most
recent reading-bearing history record carries the current lastOdometer, that
balances are non-negative, and that the generated entry id is fresh) and every
reading r accepted by recordReading on the non-init path, applying undoLast to
the resulting state restores kmBy and lastOdometer to exactly their values in
s, in both the zero-delta and positive-delta cases. -/
theorem C4_undo_inverts_record (s : AppState) (newId : String) (ts : Int)
    (u : User) (r L : ℚ) (s' : AppState)
    (hlo : s.lastOdometer = some L)
    (hlast : lastReading s.history = some L)
    (hkm : ∀ v, 0 ≤ s.kmBy.get v)
    (hfresh : newId ∉ s.history.map Entry.id)
    (hstep : addMileageEntry newId ts u r s = Except.ok s') :
    ∃ s'', undoLastEntry s' = Except.ok s'' ∧
      s''.kmBy = s.kmBy ∧ s''.lastOdometer = s.lastOdometer := by
  rcases lt_trichotomy (r - L) 0 with hneg | hzero | hpos
  · rw [addMileageEntry_decrease newId ts u r L s hlo hneg] at hstep
    exact absurd hstep (by simp)
  · rw [addMileageEntry_zero newId ts u r L s hlo hzero] at hstep
    injection hstep with h
    subst h
    have hfind := lastEntryRecord_append_entry s.history _ (rfl :
      ({ id := newId, type := EntryType.entry, timestamp := ts,
         reading := some r, deltaKm := some 0,
         attributedTo := some (OTHER u), enteredBy := some u,
         note := some "No change in km" } : Entry).type = EntryType.entry)
    refine ⟨_, undoLastEntry_some _ _ hfind, ?_, ?_⟩
    · dsimp only [Option.getD]
      rw [if_neg (by norm_num)]
    · dsimp only
      rw [filter_ne_id_append_fresh s.history _ newId rfl hfresh, hlast, hlo]
  · rw [addMileageEntry_pos newId ts u r L s hlo hpos] at hstep
    injection hstep with h
    subst h
    have hfind := lastEntryRecord_append_entry s.history _ (rfl :
      ({ id := newId, type := EntryType.entry, timestamp := ts,
         reading := some r, deltaKm := some (r - L),
         attributedTo := some (OTHER u), enteredBy := some u } : Entry).type =
        EntryType.entry)
    refine ⟨_, undoLastEntry_some _ _ hfind, ?_, ?_⟩
    · dsimp only [Option.getD]
      rw [if_pos hpos, KmBy.get_update_self, KmBy.update_update]
      have hmax : max 0 (s.kmBy.get (OTHER u) + (r - L) - (r - L)) =
          s.kmBy.get (OTHER u) := by
        rw [max_eq_right (by have := hkm (OTHER u); linarith)]
        ring
      rw [hmax, KmBy.update_get_self]
    · dsimp only
      rw [filter_ne_id_append_fresh s.history _ newId rfl hfresh, hlast, hlo]

/-- Witness for C4: recording 1180 on top of a recorded initial reading of
1000 and then undoing restores the balances and the odometer. -/
theorem C4_undo_inverts_record_witness :
    sampleState.lastOdometer = some 1000 ∧
    lastReading sampleState.history = some 1000 ∧
    (∀ v, 0 ≤ sampleState.kmBy.get v) ∧
    "id1" ∉ sampleState.history.map Entry.id ∧
    ∃ s', addMileageEntry "id1" 7 User.Ori 1180 sampleState = Except.ok s' ∧
      ∃ s'', undoLastEntry s' = Except.ok s'' ∧
        s''.kmBy = sampleState.kmBy ∧ s''.lastOdometer = sampleState.lastOdometer := by
  have hstep := addMileageEntry_pos "id1" 7 User.Ori 1180 1000 sampleState rfl (by norm_num)
  refine ⟨rfl, rfl, ?_, by simp [sampleState], ?_⟩
  · intro v
    cases v <;> norm_num [sampleState, KmBy.get]
  · exact ⟨_, hstep,
      C4_undo_inverts_record sampleState "id1" 7 User.Ori 1180 1000 _ rfl rfl
        (by intro v; cases v <;> norm_num [sampleState, KmBy.get])
        (by simp [sampleState]) hstep⟩

/-- C5: for every state, reset (resetAndGetMessage) produces a reset entry
whose snapshot freezes the pre-reset kmBy and pricePerKm and satisfies
snapshot.totalKm = preResetKmBy[A] + preResetKmBy[B] and snapshot.totalAmount
= (preResetKmBy[A] + preResetKmBy[B]) * pricePerKm, and in the new state both
users' kmBy values are 0. -/
theorem C5_reset_snapshot (newId : String) (ts : Int) (dateStr : String)
    (fmtCurrency numStr : ℚ → String) (s : AppState) :
    ∃ e, (resetAndGetMessage newId ts dateStr fmtCurrency numStr s).2.history =
        s.history ++ [e] ∧
      e.type = EntryType.reset ∧
      e.snapshot = some
        { kmBy := s.kmBy, pricePerKm := s.pricePerKm,
          totalKm := s.kmBy.Amit + s.kmBy.Ori,
          totalAmount := (s.kmBy.Amit + s.kmBy.Ori) * s.pricePerKm } ∧
      (resetAndGetMessage newId ts dateStr fmtCurrency numStr s).2.kmBy.get User.Amit = 0 ∧
      (resetAndGetMessage newId ts dateStr fmtCurrency numStr s).2.kmBy.get User.Ori = 0 :=
  ⟨_, rfl, rfl, rfl, rfl, rfl⟩

/-- C6: for every state, reset (resetAndGetMessage) leaves lastOdometer,
lastEnteredBy, pricePerKm and version unchanged, sets startingOdometer to
lastOdometer when it is set and leaves it unchanged when it is unset, and
changes no field other than startingOdometer, kmBy and history. -/
theorem C6_reset_frame (newId : String) (ts : Int) (dateStr : String)
    (fmtCurrency numStr : ℚ → String) (s : AppState) :
    (resetAndGetMessage newId ts dateStr fmtCurrency numStr s).2.lastOdometer =
        s.lastOdometer ∧
    (resetAndGetMessage newId ts dateStr fmtCurrency numStr s).2.lastEnteredBy =
        s.lastEnteredBy ∧
    (resetAndGetMessage newId ts dateStr fmtCurrency numStr s).2.pricePerKm =
        s.pricePerKm ∧
    (resetAndGetMessage newId ts dateStr fmtCurrency numStr s).2.version = s.version ∧
    (resetAndGetMessage newId ts dateStr fmtCurrency numStr s).2.startingOdometer =
        (match s.lastOdometer with
         | some lo => lo
         | none => s.startingOdometer) := by
  refine ⟨rfl, rfl, rfl, rfl, ?_⟩
  cases hlo : s.lastOdometer with
  | none => rw [resetAndGetMessage_state]; simp [hlo]
  | some lo => rw [resetAndGetMessage_state]; simp [hlo]

/-- C7: undoLast (undoLastEntry) fails with NothingToUndo if and only if
history contains no record of type entry — in this pure embedding failure
returns only the error, so the caller's state is untouched — and when an
entry-type record exists, the operation removes exactly the most recent such
record (its suffix contains no entry-type record), keeping every other
record, so it never removes an init or reset record.  Pairwise-distinct
history ids (guaranteed by the id generator) are assumed. -/
theorem C7_undo_error_and_removal (s : AppState)
    (hnodup : (s.history.map Entry.id).Nodup) :
    (undoLastEntry s = Except.error EngineError.nothingToUndo ↔
      ∀ e ∈ s.history, e.type ≠ EntryType.entry) ∧
    (∀ e s', lastEntryRecord s.history = some e →
      undoLastEntry s = Except.ok s' →
      e.type = EntryType.entry ∧
      ∃ h₁ h₂, s.history = h₁ ++ e :: h₂ ∧
        (∀ x ∈ h₂, x.type ≠ EntryType.entry) ∧
        s'.history = h₁ ++ h₂) := by
  constructor
  · constructor
    · intro herr
      cases hfind : lastEntryRecord s.history with
      | none => exact (lastEntryRecord_eq_none s.history).1 hfind
      | some eL =>
          rw [undoLastEntry_some s eL hfind] at herr
          exact absurd herr (by simp)
    · intro hno
      rw [undoLastEntry, (lastEntryRecord_eq_none s.history).2 hno]
  · intro e s' hfind hstep
    obtain ⟨htype, h₁, h₂, hsplit, hnoentry⟩ := lastEntryRecord_eq_some _ _ hfind
    rw [undoLastEntry_some s e hfind] at hstep
    injection hstep with h
    refine ⟨htype, h₁, h₂, hsplit, hnoentry, ?_⟩
    rw [← h]
    show s.history.filter (fun x => !decide (x.id = e.id)) = h₁ ++ h₂
    rw [hsplit]
    exact filter_ne_id_of_nodup h₁ h₂ e (by rw [← hsplit]; exact hnodup)

/-- Witness for C7: on a history holding only an init record, undo fails with
NothingToUndo; after recording a mileage entry on top of it, undo succeeds
and removes exactly that entry. -/
theorem C7_undo_error_and_removal_witness :
    (sampleState.history.map Entry.id).Nodup ∧
    (undoLastEntry sampleState = Except.error EngineError.nothingToUndo ↔
      ∀ e ∈ sampleState.history, e.type ≠ EntryType.entry) := by
  have hn : (sampleState.history.map Entry.id).Nodup := by simp [sampleState]
  exact ⟨hn, (C7_undo_error_and_removal sampleState hn).1⟩

/-- C8: for every state and inputs, updateSettings fails with InvalidSettings
when pricePerKm <= 0 or startingOdometer < 0 (in this pure embedding failure
returns only the error, leaving the caller's state unchanged); on success it
updates pricePerKm, updates startingOdometer only when the state's
lastOdometer is unset, and leaves history — hence every other field —
untouched, creating no history entry. -/
theorem C8_settings_gating (p so : ℚ) (s : AppState) :
    (updateSettings p so s =
      if p ≤ 0 ∨ so < 0 then Except.error EngineError.invalidSettings
      else Except.ok
        { s with
            pricePerKm := p,
            startingOdometer :=
              match s.lastOdometer with
              | none => so
              | some _ => s.startingOdometer }) ∧
    (∀ s', updateSettings p so s = Except.ok s' →
      s'.pricePerKm = p ∧ s'.history = s.history ∧ s'.kmBy = s.kmBy ∧
      s'.lastOdometer = s.lastOdometer ∧ s'.version = s.version ∧
      s'.lastEnteredBy = s.lastEnteredBy ∧
      (s.lastOdometer = none → s'.startingOdometer = so) ∧
      (s.lastOdometer ≠ none → s'.startingOdometer = s.startingOdometer)) := by
  refine ⟨updateSettings_spec p so s, ?_⟩
  intro s' hstep
  rw [updateSettings_spec] at hstep
  by_cases hc : p ≤ 0 ∨ so < 0
  · rw [if_pos hc] at hstep
    exact absurd hstep (by simp)
  · rw [if_neg hc] at hstep
    injection hstep with h
    subst h
    refine ⟨rfl, rfl, rfl, rfl, rfl, rfl, ?_, ?_⟩
    · intro hlo
      show (match s.lastOdometer with
            | none => so
            | some _ => s.startingOdometer) = so
      rw [hlo]
    · intro hlo
      cases hh : s.lastOdometer with
      | none => exact absurd hh hlo
      | some lo => rfl

/-- Witness for C8: with price 2 and starting odometer 500 on the seeded
initial state (no reading yet), the update succeeds, sets both fields, and
appends nothing to history. -/
theorem C8_settings_gating_witness :
    ∃ s', updateSettings 2 500 initialState = Except.ok s' ∧
      s'.pricePerKm = 2 ∧ s'.history = initialState.history ∧
      s'.startingOdometer = 500 := by
  have h := C8_settings_gating 2 500 initialState
  have hstep : updateSettings 2 500 initialState = Except.ok
      { initialState with pricePerKm := 2, startingOdometer := 500 } := by
    rw [h.1, if_neg (by norm_num)]
    rfl
  have hsucc := h.2 _ hstep
  exact ⟨_, hstep, hsucc.1, hsucc.2.1, hsucc.2.2.2.2.2.2.1 rfl⟩

theorem eq_empty_of_length_zero (s : String) (h : s.length = 0) : s = "" := by
  apply String.ext
  show s.data = ([] : List Char)
  have h' : s.data.length = 0 := by
    cases s
    simpa using h
  exact List.eq_nil_of_length_eq_zero h'

theorem append_left_ne_empty (a b : String) (ha : a ≠ "") : a ++ b ≠ "" := by
  intro h
  apply ha
  apply eq_empty_of_length_zero
  have hc := congrArg String.length h
  rw [String.length_append, String.length_empty] at hc
  omega

theorem jsFilterBoolean_nil : jsFilterBoolean [] = [] := rfl

theorem jsFilterBoolean_cons_none (l : List (Option String)) :
    jsFilterBoolean (none :: l) = jsFilterBoolean l := by
  simp [jsFilterBoolean]

theorem jsFilterBoolean_cons_some (s : String) (l : List (Option String))
    (h : ¬ s = "") : jsFilterBoolean (some s :: l) = s :: jsFilterBoolean l := by
  simp [jsFilterBoolean, h]

theorem resetAndGetMessage_message (newId : String) (ts : Int) (dateStr : String)
    (fmtCurrency numStr : ℚ → String) (s : AppState) :
    (resetAndGetMessage newId ts dateStr fmtCurrency numStr s).1 =
      String.intercalate "\n" (jsFilterBoolean
        [ some ("Fuel split reset (" ++ dateStr ++ ")"),
          some ("Price per km: " ++ fmtCurrency s.pricePerKm),
          some "Totals since last reset:",
          some ("- Amit: " ++ numStr s.kmBy.Amit ++ " km => " ++
            fmtCurrency (s.kmBy.Amit * s.pricePerKm)),
          some ("- Ori: " ++ numStr s.kmBy.Ori ++ " km => " ++
            fmtCurrency (s.kmBy.Ori * s.pricePerKm)),
          some ("Total: " ++ numStr (s.kmBy.Amit + s.kmBy.Ori) ++ " km => " ++
            fmtCurrency ((s.kmBy.Amit + s.kmBy.Ori) * s.pricePerKm)),
          s.lastOdometer.map (fun lo => "Odometer: " ++ numStr lo ++ " km"),
          some "Please settle accordingly." ]) := by
  simp only [resetAndGetMessage]

/-- C9: for every state, the settlement message produced by reset
(resetAndGetMessage) is a pure function of the pre-reset values (here: of the
state together with the environment-supplied date string and renderers) with
the specified line structure: a Fuel-split-reset header, a price-per-km line,
a totals header line, one line per user with that user's km and currency
amount, a Total line with totalKm and totalAmount, then an Odometer line
present exactly when lastOdometer is set and omitted entirely when it is
unset, ending with the settle-accordingly line. -/
theorem C9_message_format (newId : String) (ts : Int) (dateStr : String)
    (fmtCurrency numStr : ℚ → String) (s : AppState) :
    (resetAndGetMessage newId ts dateStr fmtCurrency numStr s).1 =
      String.intercalate "\n"
        ([ "Fuel split reset (" ++ dateStr ++ ")",
           "Price per km: " ++ fmtCurrency s.pricePerKm,
           "Totals since last reset:",
           "- Amit: " ++ numStr s.kmBy.Amit ++ " km => " ++
             fmtCurrency (s.kmBy.Amit * s.pricePerKm),
           "- Ori: " ++ numStr s.kmBy.Ori ++ " km => " ++
             fmtCurrency (s.kmBy.Ori * s.pricePerKm),
           "Total: " ++ numStr (s.kmBy.Amit + s.kmBy.Ori) ++ " km => " ++
             fmtCurrency ((s.kmBy.Amit + s.kmBy.Ori) * s.pricePerKm) ]
          ++ (match s.lastOdometer with
              | some lo => ["Odometer: " ++ numStr lo ++ " km"]
              | none => [])
          ++ ["Please settle accordingly."]) := by
  rw [resetAndGetMessage_message]
  cases hlo : s.lastOdometer with
  | none =>
      rw [show (Option.map (fun lo => "Odometer: " ++ numStr lo ++ " km")
            (none : Option ℚ)) = none from rfl]
      rw [jsFilterBoolean_cons_some _ _
            (append_left_ne_empty _ _ (append_left_ne_empty _ _ (by decide))),
          jsFilterBoolean_cons_some _ _ (append_left_ne_empty _ _ (by decide)),
          jsFilterBoolean_cons_some _ _ (by decide),
          jsFilterBoolean_cons_some _ _
            (append_left_ne_empty _ _
              (append_left_ne_empty _ _ (append_left_ne_empty _ _ (by decide)))),
          jsFilterBoolean_cons_some _ _
            (append_left_ne_empty _ _
              (append_left_ne_empty _ _ (append_left_ne_empty _ _ (by decide)))),
          jsFilterBoolean_cons_some _ _
            (append_left_ne_empty _ _
              (append_left_ne_empty _ _ (append_left_ne_empty _ _ (by decide)))),
          jsFilterBoolean_cons_none,
          jsFilterBoolean_cons_some _ _ (by decide),
          jsFilterBoolean_nil]
      rfl
  | some lo =>
      rw [show (Option.map (fun lo => "Odometer: " ++ numStr lo ++ " km")
            (some lo)) = some ("Odometer: " ++ numStr lo ++ " km") from rfl]
      rw [jsFilterBoolean_cons_some _ _
            (append_left_ne_empty _ _ (append_left_ne_empty _ _ (by decide))),
          jsFilterBoolean_cons_some _ _ (append_left_ne_empty _ _ (by decide)),
          jsFilterBoolean_cons_some _ _ (by decide),
          jsFilterBoolean_cons_some _ _
            (append_left_ne_empty _ _
              (append_left_ne_empty _ _ (append_left_ne_empty _ _ (by decide)))),
          jsFilterBoolean_cons_some _ _
            (append_left_ne_empty _ _
              (append_left_ne_empty _ _ (append_left_ne_empty _ _ (by decide)))),
          jsFilterBoolean_cons_some _ _
            (append_left_ne_empty _ _
              (append_left_ne_empty _ _ (append_left_ne_empty _ _ (by decide)))),
          jsFilterBoolean_cons_some _ _
            (append_left_ne_empty _ _ (append_left_ne_empty _ _ (by decide))),
          jsFilterBoolean_cons_some _ _ (by decide),
          jsFilterBoolean_nil]
      rfl

/-- Counterexample for C10 as stated: `dbProbeEntry` has strictly positive
reading (5) and deltaKm (3), yet not all of its fields are persisted as
given — its empty-string note goes through `entry.note || null` and is stored
as null, so the entry does not survive a store round trip. -/
theorem C10_counterexample_note_dropped :
    dbProbeEntry.reading = some 5 ∧ dbProbeEntry.deltaKm = some 3 ∧
    (addHistoryEntry dbProbeEntry).note = none ∧
    dbProbeEntry.note = some "" ∧
    readBackEntry (addHistoryEntry dbProbeEntry) ≠ dbProbeEntry := by
  refine ⟨rfl, rfl, rfl, rfl, ?_⟩
  intro h
  have hnote := congrArg Entry.note h
  simp [readBackEntry, addHistoryEntry, dbProbeEntry, jsOrNullStr] at hnote

/-- C10 (amended): for every Entry whose reading field is 0 or whose deltaKm
field is 0, addHistoryEntry persists that field as null rather than 0, so
such an entry does not round-trip through the store unchanged; for entries
with strictly positive reading and deltaKm whose note field is not the empty
string, all fields are persisted as given (an empty-string note is likewise
persisted as null, since it also goes through a falsy `|| null` coercion). -/
theorem C10_addHistoryEntry_falsy_zero (e : Entry) :
    (e.reading = some 0 → (addHistoryEntry e).reading = none ∧
      readBackEntry (addHistoryEntry e) ≠ e) ∧
    (e.deltaKm = some 0 → (addHistoryEntry e).delta_km = none ∧
      readBackEntry (addHistoryEntry e) ≠ e) ∧
    (∀ r d, e.reading = some r → 0 < r → e.deltaKm = some d → 0 < d →
      e.note ≠ some "" → readBackEntry (addHistoryEntry e) = e) := by
  refine ⟨?_, ?_, ?_⟩
  · intro hr
    have hnone : (addHistoryEntry e).reading = none := by
      simp [addHistoryEntry, jsOrNullNum, hr]
    refine ⟨hnone, ?_⟩
    intro heq
    have := congrArg Entry.reading heq
    rw [show (readBackEntry (addHistoryEntry e)).reading =
        (addHistoryEntry e).reading from rfl, hnone, hr] at this
    exact Option.noConfusion this
  · intro hd
    have hnone : (addHistoryEntry e).delta_km = none := by
      simp [addHistoryEntry, jsOrNullNum, hd]
    refine ⟨hnone, ?_⟩
    intro heq
    have := congrArg Entry.deltaKm heq
    rw [show (readBackEntry (addHistoryEntry e)).deltaKm =
        (addHistoryEntry e).delta_km from rfl, hnone, hd] at this
    exact Option.noConfusion this
  · intro r d hr hrpos hd hdpos hnote
    have h1 : jsOrNullNum e.reading = e.reading := by
      rw [hr]
      simp [jsOrNullNum, ne_of_gt hrpos]
    have h2 : jsOrNullNum e.deltaKm = e.deltaKm := by
      rw [hd]
      simp [jsOrNullNum, ne_of_gt hdpos]
    have h3 : jsOrNullStr e.note = e.note := by
      cases hn : e.note with
      | none => rfl
      | some str =>
          have hne : ¬ str = "" := by
            intro hh
            exact hnote (by rw [hn, hh])
          simp [jsOrNullStr, hne]
    cases e with
    | mk id type timestamp reading deltaKm attributedTo enteredBy note snapshot =>
        simp only [readBackEntry, addHistoryEntry] at *
        simp [h1, h2, h3]

/-- Witness for C10 (amended): a zero-reading init entry loses its reading
(stored as null), and a fully positive entry with a non-empty note
round-trips unchanged. -/
theorem C10_addHistoryEntry_falsy_zero_witness :
    (dbZeroEntry.reading = some 0 ∧
      (addHistoryEntry dbZeroEntry).reading = none ∧
      readBackEntry (addHistoryEntry dbZeroEntry) ≠ dbZeroEntry) ∧
    (dbPosEntry.reading = some 1180 ∧ dbPosEntry.deltaKm = some 180 ∧
      dbPosEntry.note ≠ some "" ∧
      readBackEntry (addHistoryEntry dbPosEntry) = dbPosEntry) := by
  constructor
  · have h := (C10_addHistoryEntry_falsy_zero dbZeroEntry).1 rfl
    exact ⟨rfl, h.1, h.2⟩
  · exact ⟨rfl, rfl, by simp [dbPosEntry],
      (C10_addHistoryEntry_falsy_zero dbPosEntry).2.2 1180 180 rfl (by norm_num)
        rfl (by norm_num) (by simp [dbPosEntry])⟩

/- ## Scenario validation (the spec's example flow)

Starting from the seeded state: Amit records 1000 (init), Ori records 1180
(180 km credited to Amit), Amit records 1227 (47 km credited to Ori), and the
reset snapshot freezes 180/47 with total 227. -/

example : ∃ s1,
    addMileageEntry "a" 0 User.Amit 1000 initialState = Except.ok s1 ∧
    s1.lastOdometer = some 1000 ∧
    s1.kmBy.get User.Amit = 0 ∧ s1.kmBy.get User.Ori = 0 ∧
    ∃ s2, addMileageEntry "b" 1 User.Ori 1180 s1 = Except.ok s2 ∧
      s2.kmBy.get User.Amit = 180 ∧ s2.kmBy.get User.Ori = 0 ∧
      ∃ s3, addMileageEntry "c" 2 User.Amit 1227 s2 = Except.ok s3 ∧
        s3.kmBy.get User.Amit = 180 ∧ s3.kmBy.get User.Ori = 47 ∧
        ∀ dateStr fmtCurrency numStr,
          ∃ e, (resetAndGetMessage "d" 3 dateStr fmtCurrency numStr s3).2.history =
              s3.history ++ [e] ∧
            e.snapshot.map Snapshot.totalKm = some 227 ∧
            (resetAndGetMessage "d" 3 dateStr fmtCurrency numStr s3).2.kmBy =
              { Amit := 0, Ori := 0 } ∧
            (resetAndGetMessage "d" 3 dateStr fmtCurrency numStr s3).2.lastOdometer =
              some 1227 := by
  have h1 := addMileageEntry_first "a" 0 User.Amit 1000 initialState rfl
  refine ⟨_, h1, rfl, rfl, rfl, ?_⟩
  refine ⟨_, addMileageEntry_pos "b" 1 User.Ori 1180 1000 _ ?_ ?_, ?_, rfl, ?_⟩
  · rfl
  · norm_num
  · show (0 : ℚ) + (1180 - 1000) = 180
    norm_num
  · refine ⟨_, addMileageEntry_pos "c" 2 User.Amit 1227 1180 _ ?_ ?_, ?_, ?_, ?_⟩
    · rfl
    · norm_num
    · show (0 : ℚ) + (1180 - 1000) = 180
      norm_num
    · show (0 : ℚ) + (1227 - 1180) = 47
      norm_num
    · intro dateStr fmtCurrency numStr
      refine ⟨_, rfl, ?_, rfl, rfl⟩
      show some ((0 + (1180 - 1000)) + (0 + (1227 - 1180)) : ℚ) = some 227
      norm_num

end FuelSplit
